import Mathlib

/-!
Verification of the sensei documentation ingestion pipeline
(markdown chunker, link parser, domain normalizer, crawl orchestrator,
retrieval service) against its natural-language specification.

Text content is embedded as `List Char` (Python strings are character
sequences).  Pure Python functions from `sensei/tome/chunker.py`,
`sensei/tome/parser.py`, `sensei/tome/crawler.py`, `sensei/tome/service.py`
and `sensei/types.py` are translated into executable Lean definitions;
effectful code (the crawl orchestrator, the service layer) is embedded as
explicit state/trace passing.  Third-party library behaviour that the code
relies on (markdown-it heading parsing, marko link extraction, urllib's
urljoin, tldextract's public-suffix lookup) is modelled explicitly, with the
modelled fragment documented on each definition.
-/

set_option maxHeartbeats 1000000

namespace Sensei

/-- Character-list representation of a Python string. -/
abbrev Str := List Char

/-- Python whitespace predicate, as used by str.split() and str.strip()
(ASCII fragment: space, tab, newline, carriage return, vertical tab,
form feed). -/
def isPyWs (c : Char) : Bool :=
  c == ' ' || c == '\t' || c == '\n' || c == '\r' || c == '\x0b' || c == '\x0c'

/-- Helper for `words`: single pass collecting maximal non-whitespace runs;
`acc` holds the reversed characters of the word currently being read. -/
def wordsAux : Str → Str → List Str
  | [], acc => if acc.isEmpty then [] else [acc.reverse]
  | c :: cs, acc =>
    if isPyWs c then
      if acc.isEmpty then wordsAux cs [] else acc.reverse :: wordsAux cs []
    else wordsAux cs (c :: acc)

/-- The whitespace-delimited words of a string, as computed by Python
str.split() with no arguments: maximal runs of non-whitespace characters,
with leading/trailing/repeated whitespace ignored. -/
def words (s : Str) : List Str :=
  wordsAux s []

/-- `count_tokens` from sensei/tome/chunker.py: the whitespace-token count
(len(content.split())). -/
def countTokens (content : Str) : Nat :=
  (words content).length

/-- content.split chr(10) from the chunker: split content into lines. -/
def splitLines (content : Str) : List Str :=
  content.splitOn '\n'

/-- chr(10).join(lines): join lines with newline separators. -/
def joinLines (lines : List Str) : Str :=
  List.intercalate ['\n'] lines

/-- Python list slicing lines[s:e]. -/
def slice (s e : Nat) (l : List Str) : List Str :=
  (l.drop s).take (e - s)

/-- Python str.strip(): remove leading and trailing whitespace. -/
def pyStrip (s : Str) : Str :=
  ((s.dropWhile isPyWs).reverse.dropWhile isPyWs).reverse

/-- Internal representation of a heading with position info
(`_HeadingInfo` in sensei/tome/chunker.py): text, level, 0-indexed
inclusive start line, exclusive end line. -/
structure HeadingInfo where
  text : Str
  level : Nat
  startLine : Nat
  endLine : Nat
deriving Repr, DecidableEq

/-- The run of ATX marker characters after a line's leading spaces. -/
def atxMarkers (l : Str) : Nat :=
  (((l.dropWhile (· == ' '))).takeWhile (· == '#')).length

/-- Modelled from the markdown-it library used by `_find_headings`:
ATX heading detection on a single line, per CommonMark — up to three
leading spaces, one to six marker characters, then end of line or a
space/tab.  Returns the heading level and the stripped text remainder. -/
def atxHeading (l : Str) : Option (Nat × Str) :=
  if (l.takeWhile (· == ' ')).length ≤ 3 then
    if 1 ≤ atxMarkers l ∧ atxMarkers l ≤ 6 then
      match (l.dropWhile (· == ' ')).drop (atxMarkers l) with
      | [] => some (atxMarkers l, [])
      | c :: tail =>
        if c == ' ' || c == '\t' then some (atxMarkers l, pyStrip (c :: tail)) else none
    else none
  else none

/-- Modelled from markdown-it: setext heading underline detection — up to
three leading spaces, then a nonempty run of equals signs (level 1) or
dashes (level 2), then only trailing spaces/tabs. -/
def setextLevel (l : Str) : Option Nat :=
  if (l.takeWhile (· == ' ')).length ≤ 3 then
    match l.dropWhile (· == ' ') with
    | [] => none
    | c :: rest =>
      if c == '=' then
        if (rest.dropWhile (· == '=')).all (fun d => d == ' ' || d == '\t') then some 1 else none
      else if c == '-' then
        if (rest.dropWhile (· == '-')).all (fun d => d == ' ' || d == '\t') then some 2 else none
      else none
  else none

/-- A line consisting only of whitespace (ends the current paragraph). -/
def isBlankLine (l : Str) : Bool :=
  l.all isPyWs

/-- Modelled from markdown-it: thematic break — up to three leading spaces,
then at least three identical dash/underscore/star characters, optionally
separated by spaces/tabs. -/
def isThematicBreak (l : Str) : Bool :=
  if (l.takeWhile (· == ' ')).length ≤ 3 then
    match l.filter (fun c => !(c == ' ' || c == '\t')) with
    | [] => false
    | c :: rest =>
      (c == '-' || c == '_' || c == '*') && (rest.length + 1 ≥ 3) && rest.all (· == c)
  else false

/-- The setext heading closed by line `l` at line number `i`, when a
paragraph is open (`para` holds its start line and reversed lines) and `l`
is a setext underline; its text is the paragraph text and its span runs
from the paragraph start through the underline. -/
def setextHeadingOf (para : Option (Nat × List Str)) (l : Str) (i : Nat) : Option HeadingInfo :=
  match para, setextLevel l with
  | some (s, acc), some lvl => some ⟨pyStrip (joinLines acc.reverse), lvl, s, i + 1⟩
  | _, _ => none

/-- Modelled from the markdown-it library used by `_find_headings` in
sensei/tome/chunker.py: a line scanner recognizing ATX and setext headings.
`i` is the current 0-indexed line number; `para` carries the start line and
accumulated (reversed) lines of the currently open paragraph, used as the
setext heading text and start position.  Container blocks (lists, block
quotes) and code blocks are outside the modelled fragment. -/
def scanHeadings : List Str → Nat → Option (Nat × List Str) → List HeadingInfo
  | [], _, _ => []
  | l :: rest, i, para =>
    if isBlankLine l then scanHeadings rest (i + 1) none
    else
      match setextHeadingOf para l i with
      | some h => h :: scanHeadings rest (i + 1) none
      | none =>
        match atxHeading l with
        | some (n, t) => ⟨t, n, i, i + 1⟩ :: scanHeadings rest (i + 1) none
        | none =>
          if isThematicBreak l then scanHeadings rest (i + 1) none
          else
            match para with
            | some (s, acc) => scanHeadings rest (i + 1) (some (s, l :: acc))
            | none => scanHeadings rest (i + 1) (some (i, [l]))

/-- `_find_headings` from sensei/tome/chunker.py: all headings of a
markdown text, in order, with line positions (via the markdown-it model
`scanHeadings`). -/
def findHeadings (content : Str) : List HeadingInfo :=
  scanHeadings (splitLines content) 0 none

/-- `SectionData` from sensei/types.py: a chunker output tree node —
heading (none for intro/root), level (0 = root), content, child sections. -/
structure SectionData where
  heading : Option Str
  level : Nat
  content : Str
  children : List SectionData
deriving Repr

/-- Python min() over the levels of a nonempty heading list, as used by
`_split_by_headings_at_level` (returns 0 on the empty list, which the
callers rule out). -/
def minimumLevel : List HeadingInfo → Nat
  | [] => 0
  | h :: t => t.foldl (fun a x => Nat.min a x.level) h.level

/-- The section-building loop of `_split_by_headings_at_level` in
sensei/tome/chunker.py: one section per top-level heading, spanning from its
start line to the next top-level heading's start line (or the end of the
content), content not stripped.  The second component of each pair is the
section's start line (the `_start_line` attribute the source attaches to the
section, modelled as an explicit paired value). -/
def buildSections (lines : List Str) : List HeadingInfo → List (SectionData × Nat)
  | [] => []
  | [h] =>
    [(⟨some h.text, h.level, joinLines (slice h.startLine lines.length lines), []⟩, h.startLine)]
  | h :: h2 :: rest =>
    (⟨some h.text, h.level, joinLines (slice h.startLine h2.startLine lines), []⟩, h.startLine) ::
      buildSections lines (h2 :: rest)

/-- The headings `_split_by_headings_at_level` keeps before splitting: all
of them when no minimum level is given, otherwise those of level at least
the minimum. -/
def filteredHeadings (content : Str) (minLevel : Option Nat) : List HeadingInfo :=
  match minLevel with
  | none => findHeadings content
  | some m => (findHeadings content).filter (fun h => m ≤ h.level)

/-- `_split_by_headings_at_level` from sensei/tome/chunker.py: find all
headings, keep those of level at least `minLevel` (when given), and split
at those of the minimum remaining level; empty when no heading survives
(the source checks emptiness both before and after filtering, which this
single check subsumes).  The source receives `lines` and rejoins them; here
the joined content is the argument and is split into lines internally (the
two are related by the exact join/split round-trip). -/
def splitByHeadingsAtLevel (content : Str) (minLevel : Option Nat) : List (SectionData × Nat) :=
  if (filteredHeadings content minLevel).isEmpty then []
  else
    buildSections (splitLines content)
      ((filteredHeadings content minLevel).filter
        (fun h => h.level == minimumLevel (filteredHeadings content minLevel)))

/-- `_split_by_top_level_headings` from sensei/tome/chunker.py. -/
def splitByTopLevelHeadings (content : Str) : List (SectionData × Nat) :=
  splitByHeadingsAtLevel content none

/-- `_split_by_subheadings` from sensei/tome/chunker.py: split only at
headings strictly deeper than the parent level. -/
def splitBySubheadings (content : Str) (parentLevel : Nat) : List (SectionData × Nat) :=
  splitByHeadingsAtLevel content (some (parentLevel + 1))

/-- `_extract_intro` from sensei/tome/chunker.py: content before the first
sub-heading — all lines when there are no sub-sections, empty when the first
sub-section starts at line 0, otherwise the lines before it (not stripped). -/
def extractIntro (lines : List Str) : List (SectionData × Nat) → Str
  | [] => joinLines lines
  | (_, startLine) :: _ =>
    if startLine == 0 then [] else joinLines (lines.take startLine)

/-- The `BrokenInvariant` raised by the chunker when content exceeds the
budget with no heading boundaries; carries the offending section's heading
(none at the document root) and its token count. -/
inductive ChunkError where
  | noBoundaries (heading : Option Str) (tokens : Nat)
deriving Repr, DecidableEq

/-- Result of running the chunker: a section tree, a raised `ChunkError`,
or `noFuel` when the modelling fuel is exhausted (shown below to be
unreachable — the Python recursion in `_chunk_section` always terminates). -/
inductive CRes where
  | ok (s : SectionData)
  | err (e : ChunkError)
  | noFuel
deriving Repr

/-- Result of the chunker's loop over a list of sub-sections. -/
inductive LRes where
  | ok (ss : List SectionData)
  | err (e : ChunkError)
  | noFuel
deriving Repr

/-- Collect the results of chunking a list of sub-sections in order,
propagating the first raised error (the loop in `_chunk_section` and
`chunk_markdown` appends results one by one and lets exceptions escape). -/
def collectSubs : List CRes → LRes
  | [] => .ok []
  | r :: rest =>
    match r with
    | .ok c =>
      match collectSubs rest with
      | .ok ss => .ok (c :: ss)
      | .err e => .err e
      | .noFuel => .noFuel
    | .err e => .err e
    | .noFuel => .noFuel

/-- `_chunk_section` from sensei/tome/chunker.py: return the section if it
fits, otherwise split at strictly deeper sub-headings, recursively chunk the
oversized ones, and rebuild the section with the intro content before the
first sub-heading; raise `noBoundaries` when no deeper sub-heading exists.
`fuel` bounds the recursion depth (the Python recursion has no such bound;
the termination theorem shows the bound used at the top level is never
hit). -/
def chunkSection : Nat → SectionData → Nat → CRes
  | 0, _, _ => .noFuel
  | fuel + 1, s, maxTokens =>
    if countTokens s.content ≤ maxTokens then .ok s
    else
      if (splitBySubheadings s.content s.level).isEmpty then
        .err (.noBoundaries s.heading (countTokens s.content))
      else
        match
          collectSubs
            ((splitBySubheadings s.content s.level).map fun p =>
              if countTokens p.1.content ≤ maxTokens then .ok p.1
              else chunkSection fuel p.1 maxTokens)
        with
        | .ok children =>
          .ok ⟨s.heading, s.level,
            extractIntro (splitLines s.content) (splitBySubheadings s.content s.level), children⟩
        | .err e => .err e
        | .noFuel => .noFuel

/-- Recursion-depth budget used when invoking the fuelled model from the
top level: heading levels run 1..6, and each recursive split goes strictly
deeper, so a depth of 7 is never exhausted (proved below). -/
def topFuel : Nat := 7

/-- `chunk_markdown` from sensei/tome/chunker.py: return the whole content
as a single root leaf when it fits; otherwise split at the top-level
headings (raising `noBoundaries` when there are none) and recursively chunk
every oversized top-level section, returning a root node with empty content
holding the chunked sections as children. -/
def chunkMarkdown (content : Str) (maxTokens : Nat) : CRes :=
  if countTokens content ≤ maxTokens then .ok ⟨none, 0, content, []⟩
  else
    if (splitByTopLevelHeadings content).isEmpty then
      .err (.noBoundaries none (countTokens content))
    else
      match
        collectSubs
          ((splitByTopLevelHeadings content).map fun p =>
            if countTokens p.1.content ≤ maxTokens then .ok p.1
            else chunkSection topFuel p.1 maxTokens)
      with
      | .ok children => .ok ⟨none, 0, [], children⟩
      | .err e => .err e
      | .noFuel => .noFuel

mutual

/-- `reconstruct_content` from sensei/tome/chunker.py: a leaf returns its
content; an internal node joins its own content (when non-empty) and its
children's reconstructions with newline separators. -/
def reconstructContent : SectionData → Str
  | ⟨_, _, content, children⟩ =>
    match children with
    | [] => content
    | c :: cs =>
      joinLines ((if content.isEmpty then [] else [content]) ++ reconstructList (c :: cs))

/-- Reconstructions of a list of sections, in order. -/
def reconstructList : List SectionData → List Str
  | [] => []
  | s :: rest => reconstructContent s :: reconstructList rest

end

/-- Whether a chunker run returned a section tree. -/
def CRes.isOk : CRes → Bool
  | .ok _ => true
  | _ => false

/-- The reconstruction of a chunker result's tree, when it returned one. -/
def reconstructRes : CRes → Option Str
  | .ok s => some (reconstructContent s)
  | _ => none

/-- A text of `n` space-separated copies of the word w, standing in for the
"10,000 space-separated words with zero headings" scenario of the spec. -/
def spacedWords : Nat → Str
  | 0 => []
  | 1 => ['w']
  | n + 2 => 'w' :: ' ' :: spacedWords (n + 1)

/-- Python str.lower() (ASCII fragment). -/
def pyLower (s : Str) : Str :=
  s.map Char.toLower

/-- `ALLOWED_CONTENT_TYPES` from sensei/tome/crawler.py. -/
def allowedContentTypes : List Str :=
  ["text/markdown".data, "text/plain".data, "text/x-markdown".data]

/-- The media type of a Content-Type header value, as computed by
`is_markdown_content`: the part before the first semicolon, stripped and
lower-cased. -/
def mediaTypeOf (s : Str) : Str :=
  pyLower (pyStrip (s.takeWhile (fun c => !(c == ';'))))

/-- `is_markdown_content` from sensei/tome/crawler.py: a missing or empty
Content-Type is rejected; otherwise the media type must be one of the
allowed markdown/plain-text types. -/
def isMarkdownContent : Option Str → Bool
  | none => false
  | some s => if s.isEmpty then false else allowedContentTypes.contains (mediaTypeOf s)

/-- Modelled from the spec: the Public Suffix List consulted by the
tldextract library in `Domain._normalize` (sensei/types.py), restricted to
the suffixes exercised in this development; each entry is a label list. -/
def publicSuffixes : List (List Str) :=
  [["com".data], ["org".data], ["net".data], ["io".data], ["dev".data], ["uk".data],
    ["co".data, "uk".data], ["ac".data, "uk".data]]

/-- The remainder of a string after the first scheme separator, when
present. -/
def findSchemeEnd : Str → Option Str
  | ':' :: '/' :: '/' :: rest => some rest
  | _ :: rest => findSchemeEnd rest
  | [] => none

/-- Modelled from the tldextract library used by `Domain._normalize`: the
host part of a URL or bare domain — the text after any scheme separator, up
to the first slash, question mark or hash, with any port suffix removed
(userinfo is outside the modelled fragment). -/
def hostPart (raw : Str) : Str :=
  (((findSchemeEnd raw).getD raw).takeWhile
      (fun c => !(c == '/' || c == '?' || c == '#'))).takeWhile (fun c => !(c == ':'))

/-- The dot-separated labels of a host, lower-cased. -/
def domainLabels (raw : Str) : List Str :=
  (pyLower (hostPart raw)).splitOn '.'

/-- Modelled from tldextract: the length of the longest public suffix
matching the tail of the label list (0 when none matches). -/
def suffixLenAux : List Str → Nat
  | [] => 0
  | l :: rest =>
    if publicSuffixes.contains (l :: rest) then (l :: rest).length else suffixLenAux rest

/-- Join host labels with dots. -/
def joinDots (labels : List Str) : Str :=
  List.intercalate ['.'] labels

/-- `Domain._normalize` from sensei/types.py: the registrable domain (the
public suffix plus one label), lower-cased; when the host is itself a public
suffix or has no labels the fallback is the extracted domain label or the
raw input, lower-cased — mirroring `(extracted.domain or raw).lower()`. -/
def domainNormalize (raw : Str) : Str :=
  if suffixLenAux (domainLabels raw) == 0 then
    match (domainLabels raw).getLast? with
    | some d => if d.isEmpty then pyLower raw else d
    | none => pyLower raw
  else
    if (domainLabels raw).length ≥ suffixLenAux (domainLabels raw) + 1 then
      joinDots ((domainLabels raw).drop
        ((domainLabels raw).length - (suffixLenAux (domainLabels raw) + 1)))
    else pyLower raw

/-- The `Domain` value object from sensei/types.py: a frozen dataclass whose
`value` is normalized on construction; equality is equality of the
normalized value. -/
structure Domain where
  value : Str
deriving Repr, DecidableEq

/-- `Domain(raw)`: construction normalizes. -/
def Domain.ofRaw (raw : Str) : Domain :=
  ⟨domainNormalize raw⟩

/-- `Domain.from_url` from sensei/types.py. -/
def Domain.fromUrl (url : Str) : Domain :=
  Domain.ofRaw url

/-- `is_same_domain` from sensei/tome/parser.py: two URLs are on the same
domain iff their `Domain` value objects compare equal. -/
def isSameDomain (baseUrl targetUrl : Str) : Bool :=
  Domain.fromUrl baseUrl == Domain.fromUrl targetUrl

/-- Modelled from the marko library used by `parse_llms_txt_links`: a
reference link definition line `[label]: url` (up to three leading spaces;
the destination is the first whitespace-delimited token after the colon). -/
def linkDefOf (l : Str) : Option (Str × Str) :=
  if (l.takeWhile (· == ' ')).length ≤ 3 then
    match l.dropWhile (· == ' ') with
    | '[' :: rest =>
      match rest.drop (rest.takeWhile (fun c => !(c == ']'))).length with
      | ']' :: ':' :: tail =>
        some (rest.takeWhile (fun c => !(c == ']')),
          (pyStrip tail).takeWhile (fun c => !(isPyWs c)))
      | _ => none
    | _ => none
  else none

/-- All reference link definitions of a document, in order. -/
def linkDefs (content : Str) : List (Str × Str) :=
  (splitLines content).filterMap linkDefOf

/-- Look up a reference label among the collected definitions
(case-insensitively, first definition wins). -/
def lookupDef : List (Str × Str) → Str → Option Str
  | [], _ => none
  | (lab, url) :: rest, key =>
    if pyLower lab == pyLower key then some url else lookupDef rest key

/-- Modelled from the marko library used by `parse_llms_txt_links`: a
character scanner collecting link destinations in document order — inline
links, resolved reference links (full, collapsed and shortcut form) and
autolinks.  `fuel` bounds the scan (it is called with the text length,
which suffices since every step consumes at least one character); nested
brackets, code spans and titles are outside the modelled fragment. -/
def scanUrls (defs : List (Str × Str)) : Nat → Str → List Str
  | 0, _ => []
  | _ + 1, [] => []
  | fuel + 1, c :: rest =>
    if c == '<' then
      match rest.drop (rest.takeWhile fun d => !(d == '>' || isPyWs d)).length with
      | '>' :: after =>
        if (rest.takeWhile fun d => !(d == '>' || isPyWs d)).any (· == ':') then
          (rest.takeWhile fun d => !(d == '>' || isPyWs d)) :: scanUrls defs fuel after
        else scanUrls defs fuel rest
      | _ => scanUrls defs fuel rest
    else if c == '[' then
      match rest.drop (rest.takeWhile fun d => !(d == ']')).length with
      | ']' :: '(' :: r2 =>
        match r2.drop (r2.takeWhile fun d => !(d == ')' || isPyWs d)).length with
        | ')' :: after =>
          (r2.takeWhile fun d => !(d == ')' || isPyWs d)) :: scanUrls defs fuel after
        | _ => scanUrls defs fuel rest
      | ']' :: '[' :: r2 =>
        match r2.drop (r2.takeWhile fun d => !(d == ']')).length with
        | ']' :: after =>
          match
            lookupDef defs
              (if (r2.takeWhile fun d => !(d == ']')).isEmpty then
                rest.takeWhile fun d => !(d == ']')
              else r2.takeWhile fun d => !(d == ']'))
          with
          | some url => url :: scanUrls defs fuel after
          | none => scanUrls defs fuel rest
        | _ => scanUrls defs fuel rest
      | ']' :: r2 =>
        match lookupDef defs (rest.takeWhile fun d => !(d == ']')) with
        | some url => url :: scanUrls defs fuel r2
        | none => scanUrls defs fuel rest
      | _ => scanUrls defs fuel rest
    else scanUrls defs fuel rest

/-- Modelled from marko's AST walk in `_extract_urls_from_ast`: the link
destinations of a document in order — reference definition lines contribute
definitions but no link elements themselves. -/
def extractUrls (content : Str) : List Str :=
  scanUrls (linkDefs content)
    (joinLines ((splitLines content).filter fun l => (linkDefOf l).isNone)).length
    (joinLines ((splitLines content).filter fun l => (linkDefOf l).isNone))

/-- A fragment-only (same-page anchor) reference. -/
def isAnchorLink : Str → Bool
  | '#' :: _ => true
  | _ => false

/-- A mailto: reference. -/
def isMailtoLink (u : Str) : Bool :=
  "mailto:".data.isPrefixOf u

/-- Whether a URL carries its own scheme (letters, then a colon). -/
def hasScheme (u : Str) : Bool :=
  match u.drop (u.takeWhile fun c =>
      c.isAlpha || c.isDigit || c == '+' || c == '-' || c == '.').length with
  | ':' :: _ =>
    match u with
    | c :: _ => c.isAlpha
    | [] => false
  | _ => false

/-- The scheme name of an absolute URL (text before the first colon). -/
def schemeOf (u : Str) : Str :=
  u.takeWhile fun c => !(c == ':')

/-- The directory part of a path: everything up to and including the last
slash. -/
def dirOf (path : Str) : Str :=
  (path.reverse.dropWhile fun c => !(c == '/')).reverse

/-- Modelled from urllib.parse.urljoin as used by `parse_llms_txt_links`:
an absolute URL stands; a scheme-relative, root-relative or relative URL is
resolved against the base's scheme, authority and directory (dot-segment
and query/fragment merging are outside the modelled fragment). -/
def urljoin (base url : Str) : Str :=
  if url.isEmpty then base
  else if hasScheme url then url
  else
    match findSchemeEnd base with
    | none => url
    | some rest =>
      match url with
      | '/' :: '/' :: _ => schemeOf base ++ ':' :: url
      | '/' :: _ =>
        schemeOf base ++ ':' :: '/' :: '/' ::
          (rest.takeWhile fun c => !(c == '/' || c == '?' || c == '#')) ++ url
      | _ =>
        schemeOf base ++ ':' :: '/' :: '/' ::
          (rest.takeWhile fun c => !(c == '/' || c == '?' || c == '#')) ++
          (if (dirOf ((rest.drop
              (rest.takeWhile fun c => !(c == '/' || c == '?' || c == '#')).length).takeWhile
                fun c => !(c == '?' || c == '#'))).isEmpty
            then ['/']
            else dirOf ((rest.drop
              (rest.takeWhile fun c => !(c == '/' || c == '?' || c == '#')).length).takeWhile
                fun c => !(c == '?' || c == '#'))) ++ url

/-- The resolution loop of `parse_llms_txt_links` from sensei/tome/parser.py:
skip anchor-only and mailto links, resolve against the base URL, and keep
the first occurrence of each absolute URL (`seen` is the set of URLs already
emitted). -/
def collectLinks (baseUrl : Str) (seen : List Str) : List Str → List Str
  | [] => []
  | u :: rest =>
    if isAnchorLink u then collectLinks baseUrl seen rest
    else if isMailtoLink u then collectLinks baseUrl seen rest
    else
      if seen.contains (urljoin baseUrl u) then collectLinks baseUrl seen rest
      else urljoin baseUrl u :: collectLinks baseUrl (urljoin baseUrl u :: seen) rest

/-- `parse_llms_txt_links` from sensei/tome/parser.py. -/
def parseLlmsTxtLinks (content baseUrl : Str) : List Str :=
  collectLinks baseUrl [] (extractUrls content)

/-- The resolved link stream before deduplication: anchors and mailto links
skipped, every survivor made absolute against the base URL (the spec's
description of steps 1–2 of the loop). -/
def resolvedStream (baseUrl : Str) (urls : List Str) : List Str :=
  (urls.filter fun u => !isAnchorLink u && !isMailtoLink u).map (urljoin baseUrl)

/-- First-occurrence deduplication, written as a specification: keep the
head, drop its later duplicates, recurse. -/
def dedupFirst : List Str → List Str
  | [] => []
  | u :: rest => u :: dedupFirst (rest.filter fun v => !(v == u))
termination_by l => l.length
decreasing_by
  exact Nat.lt_succ_of_le (List.length_filter_le _ _)

/-- `DEFAULT_MAX_TOKENS` from sensei/tome/chunker.py. -/
def defaultMaxTokens : Nat := 8000

/-- A crawl frontier entry: URL plus the crawl depth stored in the request's
user data. -/
structure CrawlRequest where
  url : Str
  depth : Nat
deriving Repr, DecidableEq

/-- An HTTP response as seen by `handle_document`: the Content-Type header
(when present) and the body, none when the bytes do not decode as UTF-8. -/
structure FetchResponse where
  contentType : Option Str
  body : Option Str

/-- `handle_document` from sensei/tome/crawler.py, reduced to its frontier
effect: skip non-markdown content types and undecodable bodies; chunk the
document (a chunker error fails the request before the enqueue step); then,
only when the current depth is strictly below `maxDepth`, enqueue the
same-domain links at depth + 1.  Storage writes are not modelled here. -/
def handleDocument (fetch : Str → FetchResponse) (maxDepth : Nat) (r : CrawlRequest) :
    List CrawlRequest :=
  if !isMarkdownContent (fetch r.url).contentType then []
  else
    match (fetch r.url).body with
    | none => []
    | some content =>
      match chunkMarkdown content defaultMaxTokens with
      | .ok _ =>
        if r.depth < maxDepth then
          ((parseLlmsTxtLinks content r.url).filter fun link => isSameDomain r.url link).map
            fun link => ⟨link, r.depth + 1⟩
        else []
      | _ => []

/-- The crawl loop of `crawler.run`: process frontier requests one at a
time (bounded concurrency abstracted to sequential order), appending each
handled request's new requests to the frontier; returns the fetched URLs in
order.  `fuel` bounds the loop; crawlee's per-crawl request ceiling plays
the same role in the source. -/
def runCrawl (fetch : Str → FetchResponse) (maxDepth : Nat) :
    Nat → List CrawlRequest → List Str → List Str
  | 0, _, fetched => fetched
  | _ + 1, [], fetched => fetched
  | fuel + 1, r :: queue, fetched =>
    runCrawl fetch maxDepth fuel (queue ++ handleDocument fetch maxDepth r) (fetched ++ [r.url])

/-- The manifest URL seeded by `ingest_domain`. -/
def manifestUrl (domain : Str) : Str :=
  "https://".data ++ domain ++ "/llms.txt".data

/-- The fetch phase of `ingest_domain`: normalize the domain, seed the
frontier with the manifest at depth 0, run the crawl. -/
def ingestCrawl (fetch : Str → FetchResponse) (domain : Str) (maxDepth fuel : Nat) : List Str :=
  runCrawl fetch maxDepth fuel [⟨manifestUrl (domainNormalize domain), 0⟩] []

/-- A persisted section row, as built by `flatten_section_tree` in
sensei/tome/crawler.py.  Modelled from the spec for the parts of the
`Section` ORM model not under src/: each constructed row receives a fresh
pre-generated identity (uuid4 in the source, a fresh counter value here). -/
structure SectionRow where
  id : Nat
  documentId : Nat
  parentSectionId : Option Nat
  heading : Option Str
  level : Nat
  content : Str
  position : Nat
deriving Repr, DecidableEq

mutual

/-- The `walk` closure of `flatten_section_tree`: skip nodes with neither
content nor children; otherwise emit a row carrying the running position and
a fresh id, then walk the children with this row's id as parent.  Returns
the rows together with the updated position and id counters. -/
def walkSection (documentId : Nat) :
    SectionData → Option Nat → Nat → Nat → List SectionRow × Nat × Nat
  | ⟨heading, level, content, children⟩, parentId, pos, nextId =>
    if content.isEmpty && children.isEmpty then ([], pos, nextId)
    else
      (⟨nextId, documentId, parentId, heading, level, content, pos⟩ ::
          (walkChildren documentId children (some nextId) (pos + 1) (nextId + 1)).1,
        (walkChildren documentId children (some nextId) (pos + 1) (nextId + 1)).2)

/-- Walk a list of child nodes in order, threading the counters. -/
def walkChildren (documentId : Nat) :
    List SectionData → Option Nat → Nat → Nat → List SectionRow × Nat × Nat
  | [], _, pos, nextId => ([], pos, nextId)
  | c :: cs, parentId, pos, nextId =>
    ((walkSection documentId c parentId pos nextId).1 ++
        (walkChildren documentId cs parentId
          (walkSection documentId c parentId pos nextId).2.1
          (walkSection documentId c parentId pos nextId).2.2).1,
      (walkChildren documentId cs parentId
        (walkSection documentId c parentId pos nextId).2.1
        (walkSection documentId c parentId pos nextId).2.2).2)

end

/-- `flatten_section_tree` from sensei/tome/crawler.py. -/
def flattenSectionTree (root : SectionData) (documentId : Nat) : List SectionRow :=
  (walkSection documentId root none 0 0).1

/-- A storage-affecting step of `ingest_domain`. -/
inductive IngestStep where
  | runCrawl
  | activateGeneration (domain : Str) (generationId : Nat)
  | cleanupOldGenerations (domain : Str)
deriving Repr, DecidableEq

/-- The outcome `ingest_domain` reports: a raised `TransientError`, or
`Success` (with whether a cleanup failure was recorded among the result's
errors). -/
inductive IngestOutcome where
  | transientError
  | success (cleanupErrorRecorded : Bool)
deriving Repr, DecidableEq

/-- Whether a step is the generation activation. -/
def IngestStep.isActivate : IngestStep → Bool
  | .activateGeneration _ _ => true
  | _ => false

/-- The generation lifecycle of `ingest_domain` (sensei/tome/crawler.py):
run the crawl; on any crawl exception re-raise as `TransientError` without
activating (the generation is left orphaned); otherwise activate the new
generation and then attempt best-effort cleanup, recording but not raising
a cleanup failure.  The external crawler and storage calls are abstracted
to their success/failure outcomes. -/
def ingestDomainTrace (domain : Str) (generationId : Nat) (crawlFails cleanupFails : Bool) :
    List IngestStep × IngestOutcome :=
  if crawlFails then ([.runCrawl], .transientError)
  else
    ([.runCrawl, .activateGeneration domain generationId, .cleanupOldGenerations domain],
      .success cleanupFails)

/-- The storage call `tome_search` makes. -/
inductive ServiceEffect where
  | searchSectionsFts (domain : Str) (query : Str)
deriving Repr, DecidableEq

/-- The outcome of `tome_search`: a raised `ToolError`, a `Success` with
results, or `NoResults`. -/
inductive SearchOutcome where
  | toolError (msg : Str)
  | success (results : List Str)
  | noResults
deriving Repr, DecidableEq

/-- Whether the outcome is a raised `ToolError`. -/
def SearchOutcome.isToolError : SearchOutcome → Bool
  | .toolError _ => true
  | _ => false

/-- The blank-query test of `tome_search`: `not query or not query.strip()`. -/
def isBlankQuery (q : Str) : Bool :=
  q.isEmpty || (pyStrip q).isEmpty

/-- `tome_search` from sensei/tome/service.py, with the storage layer
abstracted as a function from (domain, query) to result rows: an empty or
whitespace-only query raises `ToolError` before any storage access;
otherwise full-text search runs and its rows are wrapped as `Success`, or
`NoResults` when empty.  Path filters and the limit are passed through to
storage and are not modelled. -/
def tomeSearch (storage : Str → Str → List Str) (domain query : Str) :
    SearchOutcome × List ServiceEffect :=
  if isBlankQuery query then (.toolError "Search query cannot be empty".data, [])
  else if (storage domain query).isEmpty then (.noResults, [.searchSectionsFts domain query])
  else (.success (storage domain query), [.searchSectionsFts domain query])

/-- A concrete fetch environment for witnesses: every URL serves a small
markdown document with one same-domain link. -/
def demoFetch : Str → FetchResponse := fun _ =>
  ⟨some "text/markdown".data, some "[a](/x)\nsome words".data⟩

/-- The invariant carried by the flattening walk: positions and pre-assigned
ids are consecutive runs starting at the counters, and every row's parent
reference is either the walk's incoming parent or the id of a row created
earlier in this walk (an id below the row's own). -/
def rowsInv (rows : List SectionRow) (parentId : Option Nat) (pos nextId : Nat) : Prop :=
  rows.map (·.position) = List.range' pos rows.length ∧
    rows.map (·.id) = List.range' nextId rows.length ∧
    ∀ r ∈ rows, r.parentSectionId = parentId ∨
      ∃ j : Nat, r.parentSectionId = some (nextId + j) ∧ nextId + j < r.id

example : countTokens "hello world how are you".data = 5 := by decide

example : countTokens "hello\nworld\ntest".data = 3 := by decide

example : countTokens "".data = 0 := by decide

example : findHeadings "Just some plain text without any headings.".data = [] := by decide

example :
    findHeadings "## Getting Started\n\nSome content here.".data =
      [⟨"Getting Started".data, 2, 0, 1⟩] := by decide

example :
    findHeadings "Title Here\n==========\n\nSome content.".data =
      [⟨"Title Here".data, 1, 0, 2⟩] := by decide

example :
    findHeadings "intro\n\n# A\nb\n\nS\n======\nc".data =
      [⟨"A".data, 1, 2, 3⟩, ⟨"S".data, 1, 5, 7⟩] := by decide

example :
    chunkMarkdown "# Small Document\n\nThis is small.".data 1000 =
      .ok ⟨none, 0, "# Small Document\n\nThis is small.".data, []⟩ := by rfl

example :
    reconstructRes (chunkMarkdown "## First\n\nFirst content.\n\n## Second\n\nSecond content.".data 5) =
      some "## First\n\nFirst content.\n\n## Second\n\nSecond content.".data := by decide

example :
    (chunkMarkdown "intro\n\n# A\nb\n\nS\n======\nc".data 4).isOk = true := by decide

example :
    reconstructRes (chunkMarkdown "intro\n\n# A\nb\n\nS\n======\nc".data 4) =
      some "# A\nb\n\nS\n======\nc".data := by decide

/-- A setext heading is level 1 or 2. -/
theorem setextLevel_bounds {l : Str} {n : Nat} (h : setextLevel l = some n) :
    1 ≤ n ∧ n ≤ 6 := by
  unfold setextLevel at h
  split at h
  · split at h
    · exact absurd h (by simp)
    · split at h
      · split at h
        · cases h; omega
        · exact absurd h (by simp)
      · split at h
        · split at h
          · cases h; omega
          · exact absurd h (by simp)
        · exact absurd h (by simp)
  · exact absurd h (by simp)

/-- An ATX heading has between one and six marker characters. -/
theorem atxHeading_bounds {l : Str} {n : Nat} {t : Str} (h : atxHeading l = some (n, t)) :
    1 ≤ n ∧ n ≤ 6 := by
  unfold atxHeading at h
  split at h
  · split at h
    · split at h
      · cases h; assumption
      · split at h
        · cases h; assumption
        · exact absurd h (by simp)
    · exact absurd h (by simp)
  · exact absurd h (by simp)

/-- A setext heading closed by the scanner has level between 1 and 6. -/
theorem setextHeadingOf_bounds {para : Option (Nat × List Str)} {l : Str} {i : Nat}
    {h : HeadingInfo} (hh : setextHeadingOf para l i = some h) :
    1 ≤ h.level ∧ h.level ≤ 6 := by
  unfold setextHeadingOf at hh
  split at hh
  · cases hh
    exact setextLevel_bounds (by assumption)
  · exact absurd hh (by simp)

/-- Unfolding equation for the scanner's cons case (stated by hand because
the nested matches defeat automatic equation generation). -/
theorem scanHeadings_cons (l : Str) (rest : List Str) (i : Nat)
    (para : Option (Nat × List Str)) :
    scanHeadings (l :: rest) i para =
      if isBlankLine l then scanHeadings rest (i + 1) none
      else
        match setextHeadingOf para l i with
        | some h => h :: scanHeadings rest (i + 1) none
        | none =>
          match atxHeading l with
          | some (n, t) => ⟨t, n, i, i + 1⟩ :: scanHeadings rest (i + 1) none
          | none =>
            if isThematicBreak l then scanHeadings rest (i + 1) none
            else
              match para with
              | some (s, acc) => scanHeadings rest (i + 1) (some (s, l :: acc))
              | none => scanHeadings rest (i + 1) (some (i, [l])) := rfl

/-- Every heading the markdown-it model reports has level between 1 and 6. -/
theorem scanHeadings_level_bounds :
    ∀ (lines : List Str) (i : Nat) (para : Option (Nat × List Str)) (h : HeadingInfo),
      h ∈ scanHeadings lines i para → 1 ≤ h.level ∧ h.level ≤ 6 := by
  intro lines
  induction lines with
  | nil => intro i para h hh; simp [scanHeadings] at hh
  | cons l rest ih =>
    intro i para h hh
    rw [scanHeadings_cons] at hh
    split at hh
    · exact ih _ _ _ hh
    · split at hh
      · rcases List.mem_cons.mp hh with rfl | hmem
        · exact setextHeadingOf_bounds (by assumption)
        · exact ih _ _ _ hmem
      · split at hh
        · rcases List.mem_cons.mp hh with rfl | hmem
          · exact atxHeading_bounds (by assumption)
          · exact ih _ _ _ hmem
        · split at hh
          · exact ih _ _ _ hh
          · split at hh
            · exact ih _ _ _ hh
            · exact ih _ _ _ hh

/-- Every heading `_find_headings` reports has level between 1 and 6. -/
theorem findHeadings_level_bounds {content : Str} {h : HeadingInfo}
    (hh : h ∈ findHeadings content) : 1 ≤ h.level ∧ h.level ≤ 6 :=
  scanHeadings_level_bounds _ _ _ _ hh

/-- Each section built by the splitting loop takes its level from one of the
given headings. -/
theorem buildSections_level (lines : List Str) :
    ∀ (hs : List HeadingInfo) (p : SectionData × Nat),
      p ∈ buildSections lines hs → ∃ h ∈ hs, p.1.level = h.level := by
  intro hs
  induction hs with
  | nil => intro p hp; simp [buildSections] at hp
  | cons h t ih =>
    intro p hp
    match t, hp with
    | [], hp =>
      rcases List.mem_singleton.mp hp with rfl
      exact ⟨h, by simp, rfl⟩
    | h2 :: rest, hp =>
      rcases List.mem_cons.mp hp with rfl | hmem
      · exact ⟨h, by simp, rfl⟩
      · rcases ih _ hmem with ⟨h3, hh3, hl⟩
        exact ⟨h3, List.mem_cons_of_mem _ hh3, hl⟩

/-- Each section produced by `_split_by_headings_at_level` has the level of
an actual heading of the content (hence between 1 and 6) and, when a
minimum level was requested, a level at least that minimum. -/
theorem splitByHeadingsAtLevel_level {content : Str} {ml : Option Nat} {p : SectionData × Nat}
    (hp : p ∈ splitByHeadingsAtLevel content ml) :
    (1 ≤ p.1.level ∧ p.1.level ≤ 6) ∧ ∀ m, ml = some m → m ≤ p.1.level := by
  unfold splitByHeadingsAtLevel at hp
  split at hp
  · simp at hp
  · rcases buildSections_level _ _ _ hp with ⟨h, hh, hl⟩
    have hmem := (List.mem_filter.mp hh).1
    constructor
    · cases ml with
      | none => exact hl ▸ findHeadings_level_bounds hmem
      | some m =>
        have h2 : h ∈ findHeadings content ∧ m ≤ h.level := by
          simpa [filteredHeadings] using hmem
        exact hl ▸ findHeadings_level_bounds h2.1
    · intro m hm
      subst hm
      have h2 : h ∈ findHeadings content ∧ m ≤ h.level := by
        simpa [filteredHeadings] using hmem
      rw [hl]
      exact h2.2

/-- `_split_by_subheadings` only ever returns sections at a heading level
strictly deeper than the parent level. -/
theorem splitBySubheadings_deeper {content : Str} {L : Nat} {p : SectionData × Nat}
    (hp : p ∈ splitBySubheadings content L) : L < p.1.level := by
  have := (splitByHeadingsAtLevel_level hp).2 (L + 1) rfl
  omega

/-- Sections produced by `_split_by_subheadings` have level at most 6. -/
theorem splitBySubheadings_le6 {content : Str} {L : Nat} {p : SectionData × Nat}
    (hp : p ∈ splitBySubheadings content L) : p.1.level ≤ 6 :=
  (splitByHeadingsAtLevel_level hp).1.2

/-- Collecting sub-results only runs out of fuel if one of them did. -/
theorem collectSubs_ne_noFuel :
    ∀ (rs : List CRes), (∀ r ∈ rs, r ≠ .noFuel) → collectSubs rs ≠ .noFuel := by
  intro rs
  induction rs with
  | nil => intro _; simp [collectSubs]
  | cons r rest ih =>
    intro hall
    have hr := hall r (List.mem_cons_self _ _)
    have htail := ih fun x hx => hall x (List.mem_cons_of_mem _ hx)
    cases r with
    | ok c =>
      cases hrec : collectSubs rest with
      | ok ss => simp [collectSubs, hrec]
      | err e => simp [collectSubs, hrec]
      | noFuel => exact absurd hrec htail
    | err e => simp [collectSubs]
    | noFuel => exact absurd rfl hr

/-- The fuelled model of `_chunk_section` never exhausts its fuel when the
fuel covers the remaining heading levels: every split goes to a strictly
deeper level, and levels are bounded by 6. -/
theorem chunkSection_ne_noFuel :
    ∀ (fuel : Nat) (s : SectionData) (m : Nat),
      s.level ≤ 6 → 7 ≤ s.level + fuel → chunkSection fuel s m ≠ .noFuel := by
  intro fuel
  induction fuel with
  | zero => intro s m h6 h7; omega
  | succ fuel ih =>
    intro s m h6 h7
    unfold chunkSection
    split
    · simp
    · split
      · simp
      · split
        · simp
        · simp
        · rename_i hcol
          exfalso
          refine collectSubs_ne_noFuel _ ?_ hcol
          intro r hr
          rcases List.mem_map.mp hr with ⟨p, hp, rfl⟩
          split
          · simp
          · exact ih p.1 m (splitBySubheadings_le6 hp)
              (by have := splitBySubheadings_deeper hp; omega)

/-- `chunk_markdown` returns the whole content as a single root leaf node
whenever the content fits the token budget. -/
theorem chunkMarkdown_fits {content : Str} {m : Nat} (h : countTokens content ≤ m) :
    chunkMarkdown content m = .ok ⟨none, 0, content, []⟩ := by
  unfold chunkMarkdown
  rw [if_pos h]

/-- With no headings at all, there is nothing to split at. -/
theorem splitByTopLevelHeadings_of_noHeadings {content : Str}
    (h : findHeadings content = []) : splitByTopLevelHeadings content = [] := by
  unfold splitByTopLevelHeadings splitByHeadingsAtLevel filteredHeadings
  simp [h]

/-- `chunk_markdown` raises the oversized-content error when the content
exceeds the budget and has no headings. -/
theorem chunkMarkdown_noHeadings {content : Str} {m : Nat} (hm : m < countTokens content)
    (hh : findHeadings content = []) :
    chunkMarkdown content m = .err (.noBoundaries none (countTokens content)) := by
  unfold chunkMarkdown
  rw [if_neg (by omega), if_pos (by simp [splitByTopLevelHeadings_of_noHeadings hh])]

/-- `_chunk_section` raises the oversized-content error for a section over
budget with no strictly deeper sub-headings. -/
theorem chunkSection_noSubheadings {s : SectionData} {m : Nat} (fuel : Nat)
    (hm : m < countTokens s.content) (hsub : splitBySubheadings s.content s.level = []) :
    chunkSection (fuel + 1) s m = .err (.noBoundaries s.heading (countTokens s.content)) := by
  unfold chunkSection
  rw [if_neg (by omega), if_pos (by simp [hsub])]

/-- The word list of `n + 1` space-separated words is n + 1 copies of w. -/
theorem words_spacedWords : ∀ n : Nat, words (spacedWords (n + 1)) = List.replicate (n + 1) ['w'] := by
  intro n
  induction n with
  | zero => rfl
  | succ n ih =>
    have step : spacedWords (n + 2) = 'w' :: ' ' :: spacedWords (n + 1) := rfl
    have step2 : ∀ t : Str, words ('w' :: ' ' :: t) = ['w'] :: wordsAux t [] := fun t => rfl
    rw [step, step2, List.replicate_succ]
    exact congrArg (List.cons ['w']) ih

/-- The token count of `n + 1` space-separated words is `n + 1`. -/
theorem countTokens_spacedWords (n : Nat) : countTokens (spacedWords (n + 1)) = n + 1 := by
  unfold countTokens
  rw [words_spacedWords, List.length_replicate]

/-- The space-separated word text contains only w and space characters. -/
theorem spacedWords_chars : ∀ (n : Nat) (c : Char), c ∈ spacedWords n → c = 'w' ∨ c = ' ' := by
  intro n
  induction n using spacedWords.induct with
  | case1 => intro c hc; simp [spacedWords] at hc
  | case2 => intro c hc; simp [spacedWords] at hc; simp [hc]
  | case3 n ih =>
    intro c hc
    rw [show spacedWords (n + 2) = 'w' :: ' ' :: spacedWords (n + 1) from rfl] at hc
    rcases hc with _ | ⟨_, hc⟩
    · exact Or.inl rfl
    rcases hc with _ | ⟨_, hc⟩
    · exact Or.inr rfl
    · exact ih c hc

/-- Splitting a newline-free text into lines yields that text as the single
line. -/
theorem splitLines_single {l : Str} (h : '\n' ∉ l) : splitLines l = [l] := by
  unfold splitLines
  rw [List.splitOn]
  exact List.splitOnP_eq_single _ _ (by intro x hx; simp; exact fun he => h (he ▸ hx))

/-- A single line starting with the letter w contains no heading. -/
theorem scanHeadings_single_w (t : Str) : scanHeadings ['w' :: t] 0 none = [] := rfl

/-- The space-separated word text has no headings at all. -/
theorem findHeadings_spacedWords (n : Nat) : findHeadings (spacedWords (n + 1)) = [] := by
  unfold findHeadings
  have hnl : '\n' ∉ spacedWords (n + 1) := by
    intro hmem
    rcases spacedWords_chars _ _ hmem with h | h <;> simp at h
  rw [splitLines_single hnl]
  have hw : ∃ t : Str, spacedWords (n + 1) = 'w' :: t := by
    cases n with
    | zero => exact ⟨[], rfl⟩
    | succ n => exact ⟨' ' :: spacedWords (n + 1), rfl⟩
  rcases hw with ⟨t, ht⟩
  rw [ht]
  exact scanHeadings_single_w t

/-- `chunk_markdown` never exhausts the recursion-depth budget: with the
top-level budget of 7, every run returns a tree or raises. -/
theorem chunkMarkdown_ne_noFuel (content : Str) (m : Nat) :
    chunkMarkdown content m ≠ .noFuel := by
  unfold chunkMarkdown
  split
  · simp
  · split
    · simp
    · split
      · simp
      · simp
      · rename_i hcol
        exfalso
        refine collectSubs_ne_noFuel _ ?_ hcol
        intro r hr
        rcases List.mem_map.mp hr with ⟨p, hp, rfl⟩
        split
        · simp
        · have hb := (splitByHeadingsAtLevel_level hp).1
          exact chunkSection_ne_noFuel topFuel p.1 m hb.2 (by unfold topFuel; omega)

example : domainNormalize "https://www.example.com:443/x".data = "example.com".data := by decide

example : domainNormalize "EXAMPLE.com".data = "example.com".data := by decide

example : domainNormalize "forums.bbc.co.uk".data = "bbc.co.uk".data := by decide

example : domainNormalize "api.docs.example.com".data = "example.com".data := by decide

example : domainNormalize "react.dev".data = "react.dev".data := by decide

example : domainNormalize "localhost".data = "localhost".data := by decide

example : isMarkdownContent (some "Text/Plain; charset=utf-8".data) = true := by decide

example : isMarkdownContent (some "application/json".data) = false := by decide

example :
    parseLlmsTxtLinks "[a](/x)\n[b](/x)\n[c](http://other.com/y)".data
        "http://example.com/llms.txt".data =
      ["http://example.com/x".data, "http://other.com/y".data] := by decide

example :
    (parseLlmsTxtLinks "[a](/x)\n[b](/x)\n[c](http://other.com/y)".data
          "http://example.com/llms.txt".data).filter
        (fun link => isSameDomain "http://example.com/llms.txt".data link) =
      ["http://example.com/x".data] := by decide

example :
    parseLlmsTxtLinks "see [docs][d] and <https://example.com/auto> plus [text](#frag) and [m](mailto:a@b.c)\n\n[d]: /ref-target".data
        "https://example.com/llms.txt".data =
      ["https://example.com/ref-target".data, "https://example.com/auto".data] := by decide

example :
    flattenSectionTree ⟨none, 0, [], [⟨some ['A'], 1, ['x'], []⟩]⟩ 5 =
      [⟨0, 5, none, none, 0, [], 0⟩, ⟨1, 5, some 0, some ['A'], 1, ['x'], 1⟩] := by decide

example :
    ingestCrawl demoFetch "example.com".data 0 5 =
      ["https://example.com/llms.txt".data] := by decide

example :
    ingestCrawl demoFetch "example.com".data 1 5 =
      ["https://example.com/llms.txt".data, "https://example.com/x".data] := by decide

mutual

/-- The walk over a single node satisfies the flattening invariant and
advances both counters by the number of rows created. -/
theorem walkSection_inv (documentId : Nat) (node : SectionData) (parentId : Option Nat)
    (pos nextId : Nat) :
    rowsInv (walkSection documentId node parentId pos nextId).1 parentId pos nextId ∧
      (walkSection documentId node parentId pos nextId).2.1 =
        pos + (walkSection documentId node parentId pos nextId).1.length ∧
      (walkSection documentId node parentId pos nextId).2.2 =
        nextId + (walkSection documentId node parentId pos nextId).1.length := by
  match node with
  | ⟨heading, level, content, children⟩ =>
    obtain ⟨⟨ihpos, ihid, ihpar⟩, ihp, ihi⟩ :=
      walkChildren_inv documentId children (some nextId) (pos + 1) (nextId + 1)
    by_cases hg : (content.isEmpty && children.isEmpty) = true
    · rw [walkSection, if_pos hg]
      exact ⟨⟨rfl, rfl, by intro r hr; simp at hr⟩, by simp, by simp⟩
    · rw [walkSection, if_neg hg]
      refine ⟨⟨?_, ?_, ?_⟩, ?_, ?_⟩
      · simp [ihpos, List.range'_succ]
      · simp [ihid, List.range'_succ]
      · intro r hr
        rcases List.mem_cons.mp hr with rfl | hmem
        · exact Or.inl rfl
        · have hidmem : r.id ∈ List.range' (nextId + 1)
              (walkChildren documentId children (some nextId) (pos + 1) (nextId + 1)).1.length := by
            rw [← ihid]
            exact List.mem_map_of_mem _ hmem
          have hlow : nextId + 1 ≤ r.id := (List.mem_range'_1.mp hidmem).1
          rcases ihpar r hmem with hpp | ⟨j, hj1, hj2⟩
          · exact Or.inr ⟨0, by simpa using hpp, by omega⟩
          · exact Or.inr ⟨j + 1, by rw [hj1]; exact congrArg some (by omega), by omega⟩
      · simp only [List.length_cons]
        omega
      · simp only [List.length_cons]
        omega

/-- The walk over a list of children satisfies the flattening invariant. -/
theorem walkChildren_inv (documentId : Nat) (cs : List SectionData) (parentId : Option Nat)
    (pos nextId : Nat) :
    rowsInv (walkChildren documentId cs parentId pos nextId).1 parentId pos nextId ∧
      (walkChildren documentId cs parentId pos nextId).2.1 =
        pos + (walkChildren documentId cs parentId pos nextId).1.length ∧
      (walkChildren documentId cs parentId pos nextId).2.2 =
        nextId + (walkChildren documentId cs parentId pos nextId).1.length := by
  match cs with
  | [] =>
    exact ⟨⟨rfl, rfl, by intro r hr; simp [walkChildren] at hr⟩, by simp [walkChildren],
      by simp [walkChildren]⟩
  | c :: rest =>
    have ih1 := walkSection_inv documentId c parentId pos nextId
    rcases hS : walkSection documentId c parentId pos nextId with ⟨rows1, pos1, id1⟩
    rw [hS] at ih1
    obtain ⟨⟨hpos1, hid1, hpar1⟩, hp1, hi1⟩ := ih1
    simp only at hpos1 hid1 hpar1 hp1 hi1
    have ih2 := walkChildren_inv documentId rest parentId pos1 id1
    rcases hC : walkChildren documentId rest parentId pos1 id1 with ⟨rows2, pos2, id2⟩
    rw [hC] at ih2
    obtain ⟨⟨hpos2, hid2, hpar2⟩, hp2, hi2⟩ := ih2
    simp only at hpos2 hid2 hpar2 hp2 hi2
    rw [walkChildren, hS]
    simp only [hC]
    refine ⟨⟨?_, ?_, ?_⟩, ?_, ?_⟩
    · rw [List.map_append, hpos1, hpos2, hp1, List.length_append,
        show rows1.length + rows2.length = rows2.length + rows1.length from Nat.add_comm _ _]
      exact List.range'_append_1 pos rows1.length rows2.length
    · rw [List.map_append, hid1, hid2, hi1, List.length_append,
        show rows1.length + rows2.length = rows2.length + rows1.length from Nat.add_comm _ _]
      exact List.range'_append_1 nextId rows1.length rows2.length
    · intro r hr
      rcases List.mem_append.mp hr with hmem | hmem
      · exact hpar1 r hmem
      · rcases hpar2 r hmem with hpp | ⟨j, hj1, hj2⟩
        · exact Or.inl hpp
        · rw [hi1] at hj1 hj2
          exact Or.inr ⟨rows1.length + j,
            by rw [hj1]; exact congrArg some (by omega), by omega⟩
    · rw [List.length_append]
      omega
    · rw [List.length_append]
      omega

end

/-- `(range' s n).take k = range' s k` when `k ≤ n`. -/
theorem take_range'_of_le : ∀ (k n s : Nat), k ≤ n →
    (List.range' s n).take k = List.range' s k := by
  intro k
  induction k with
  | zero => intro n s _; simp
  | succ k ih =>
    intro n s hk
    match n with
    | m + 1 =>
      rw [List.range'_succ, List.range'_succ, List.take_succ_cons, ih m (s + 1) (by omega)]

/-- C1: the round-trip law fails on the code.  For the markdown text
"intro", blank line, an ATX heading section, a setext heading section
(mixed heading notations) and max_tokens = 4, `chunk_markdown` succeeds
but `reconstruct_content` of its result differs from the input: the
"intro" text before the first top-level heading is dropped, because
`chunk_markdown` (unlike `_chunk_section`) never extracts the intro
content at the document root. -/
theorem roundtrip_drops_preamble :
    (chunkMarkdown "intro\n\n# A\nb\n\nS\n======\nc".data 4).isOk = true ∧
      reconstructRes (chunkMarkdown "intro\n\n# A\nb\n\nS\n======\nc".data 4) ≠
        some "intro\n\n# A\nb\n\nS\n======\nc".data ∧
      reconstructRes (chunkMarkdown "intro\n\n# A\nb\n\nS\n======\nc".data 4) =
        some "# A\nb\n\nS\n======\nc".data := by
  refine ⟨by decide, by decide, by decide⟩

/-- C2: the chunker recursion only ever splits at heading levels strictly
greater than the enclosing section's own level, and the chunker as a whole
always terminates returning a section tree or raising the no-boundary
error: the fuelled model never returns the fuel-exhaustion marker. -/
theorem chunker_splits_deeper_and_terminates :
    (∀ (content : Str) (L : Nat) (p : SectionData × Nat),
        p ∈ splitBySubheadings content L → L < p.1.level) ∧
      ∀ (content : Str) (m : Nat), chunkMarkdown content m ≠ CRes.noFuel := by
  exact ⟨fun _ _ _ hp => splitBySubheadings_deeper hp, chunkMarkdown_ne_noFuel⟩

/-- Witness for C2 at concrete inputs: a level-2 section's content with a
level-3 heading splits at level 3, and a concrete chunker run does not
exhaust fuel. -/
theorem chunker_splits_deeper_and_terminates_witness :
    2 < ((⟨some ['B'], 3, "### B\nx".data, []⟩ : SectionData), (0 : Nat)).1.level ∧
      chunkMarkdown ['a'] 5 ≠ CRes.noFuel := by
  constructor
  · refine chunker_splits_deeper_and_terminates.1 "### B\nx".data 2 _ ?_
    rw [show splitBySubheadings "### B\nx".data 2 =
      [(⟨some ['B'], 3, "### B\nx".data, []⟩, (0 : Nat))] from rfl]
    exact List.mem_singleton_self _
  · exact chunker_splits_deeper_and_terminates.2 ['a'] 5

/-- C3: `chunk_markdown` returns a single leaf (heading none, level 0,
content equal to the input, no children) when the token count fits the
budget; it raises the oversized-content error whenever the count exceeds
the budget and the content has no headings — in particular for 10,000
space-separated words at max_tokens = 100 — and `_chunk_section` raises
the same error for an over-budget section with no strictly deeper
sub-headings. -/
theorem chunker_no_boundary_error :
    (∀ (content : Str) (m : Nat), countTokens content ≤ m →
        chunkMarkdown content m = .ok ⟨none, 0, content, []⟩) ∧
      (∀ (content : Str) (m : Nat), m < countTokens content → findHeadings content = [] →
        chunkMarkdown content m = .err (.noBoundaries none (countTokens content))) ∧
      (∀ (s : SectionData) (m fuel : Nat), m < countTokens s.content →
        splitBySubheadings s.content s.level = [] →
        chunkSection (fuel + 1) s m = .err (.noBoundaries s.heading (countTokens s.content))) ∧
      chunkMarkdown (spacedWords 10000) 100 = .err (.noBoundaries none 10000) := by
  refine ⟨fun _ _ h => chunkMarkdown_fits h,
    fun _ _ hm hh => chunkMarkdown_noHeadings hm hh,
    fun _ _ fuel hm hs => chunkSection_noSubheadings fuel hm hs, ?_⟩
  have h10 : countTokens (spacedWords 10000) = 10000 := countTokens_spacedWords 9999
  have := @chunkMarkdown_noHeadings (spacedWords 10000) 100
    (by omega) (findHeadings_spacedWords 9999)
  rw [h10] at this
  exact this

/-- Witness for C3 at concrete inputs: a fitting text becomes a leaf, an
oversized heading-free text raises, and an oversized section with no
deeper sub-heading raises. -/
theorem chunker_no_boundary_error_witness :
    chunkMarkdown "hi".data 5 = .ok ⟨none, 0, "hi".data, []⟩ ∧
      chunkMarkdown "a b".data 1 = .err (.noBoundaries none (countTokens "a b".data)) ∧
      chunkSection 1 ⟨some ['A'], 1, "x y".data, []⟩ 1 =
        .err (.noBoundaries (some ['A']) (countTokens "x y".data)) := by
  refine ⟨chunker_no_boundary_error.1 "hi".data 5 (by decide),
    chunker_no_boundary_error.2.1 "a b".data 1 (by decide) rfl,
    chunker_no_boundary_error.2.2.1 ⟨some ['A'], 1, "x y".data, []⟩ 1 0 (by decide) rfl⟩

/-- C4: when the crawl's fetch phase fails fatally, `ingest_domain` never
activates the new generation (leaving it orphaned) and reports a transient
failure; a successful crawl, by contrast, does activate its generation. -/
theorem failed_crawl_never_activates :
    ∀ (domain : Str) (generationId : Nat) (cleanupFails : Bool),
      ((ingestDomainTrace domain generationId true cleanupFails).1.all
          fun s => !s.isActivate) = true ∧
        (ingestDomainTrace domain generationId true cleanupFails).2 =
          IngestOutcome.transientError ∧
        ∀ cf : Bool,
          IngestStep.activateGeneration domain generationId ∈
            (ingestDomainTrace domain generationId false cf).1 := by
  intro d g cf
  refine ⟨rfl, rfl, fun cf2 => ?_⟩
  simp [ingestDomainTrace]

/-- Witness for C4 at concrete inputs. -/
theorem failed_crawl_never_activates_witness :
    ((ingestDomainTrace "react.dev".data 7 true false).1.all fun s => !s.isActivate) = true ∧
      (ingestDomainTrace "react.dev".data 7 true false).2 = IngestOutcome.transientError := by
  exact ⟨(failed_crawl_never_activates "react.dev".data 7 false).1,
    (failed_crawl_never_activates "react.dev".data 7 false).2.1⟩

/-- C5: in the flat list produced by `flatten_section_tree`, positions are
assigned by the depth-first walk as 0, 1, 2, … in list order, and every
non-null parent reference points at the pre-assigned id of a row strictly
earlier in the list. -/
theorem flatten_positions_and_parent_order :
    ∀ (root : SectionData) (documentId : Nat),
      (flattenSectionTree root documentId).map (·.position) =
          List.range (flattenSectionTree root documentId).length ∧
        ∀ (k : Nat) (hk : k < (flattenSectionTree root documentId).length) (p : Nat),
          ((flattenSectionTree root documentId).get ⟨k, hk⟩).parentSectionId = some p →
            p ∈ ((flattenSectionTree root documentId).take k).map (·.id) := by
  intro root documentId
  obtain ⟨⟨hpos, hid, hpar⟩, -, -⟩ := walkSection_inv documentId root none 0 0
  have hid2 : (flattenSectionTree root documentId).map (·.id) =
      List.range' 0 (flattenSectionTree root documentId).length := hid
  have hpar2 : ∀ r ∈ flattenSectionTree root documentId,
      r.parentSectionId = none ∨
        ∃ j : Nat, r.parentSectionId = some (0 + j) ∧ 0 + j < r.id := hpar
  constructor
  · rw [List.range_eq_range']
    exact hpos
  · intro k hk p hp
    have hr := List.get_mem (flattenSectionTree root documentId) k hk
    have hidk : ((flattenSectionTree root documentId).get ⟨k, hk⟩).id = k := by
      have hk2 : k < ((flattenSectionTree root documentId).map (·.id)).length := by
        simpa using hk
      have e1 : ((flattenSectionTree root documentId).map (·.id)).get ⟨k, hk2⟩ =
          ((flattenSectionTree root documentId).get ⟨k, hk⟩).id := by
        simp
      have e2 := List.get_of_eq hid2 ⟨k, hk2⟩
      rw [e1] at e2
      rw [e2]
      simp [List.getElem_range'_1]
    rcases hpar2 _ hr with h0 | ⟨j, hj1, hj2⟩
    · rw [hp] at h0
      cases h0
    · rw [hp] at hj1
      have hpj : p = j := by
        have := Option.some.inj hj1
        omega
      rw [List.map_take, hid2, take_range'_of_le k
        (flattenSectionTree root documentId).length 0 (by omega)]
      rw [hidk] at hj2
      exact List.mem_range'_1.mpr ⟨by omega, by omega⟩

/-- Witness for C5 at a concrete two-node tree. -/
theorem flatten_positions_and_parent_order_witness :
    (flattenSectionTree ⟨none, 0, [], [⟨some ['A'], 1, ['x'], []⟩]⟩ 5).map (·.position) =
        List.range (flattenSectionTree ⟨none, 0, [], [⟨some ['A'], 1, ['x'], []⟩]⟩ 5).length ∧
      0 ∈ ((flattenSectionTree ⟨none, 0, [], [⟨some ['A'], 1, ['x'], []⟩]⟩ 5).take 1).map
        (·.id) := by
  refine ⟨(flatten_positions_and_parent_order ⟨none, 0, [], [⟨some ['A'], 1, ['x'], []⟩]⟩ 5).1,
    (flatten_positions_and_parent_order ⟨none, 0, [], [⟨some ['A'], 1, ['x'], []⟩]⟩ 5).2
      1 (by decide) 0 (by decide)⟩

/-- `handle_document` enqueues nothing once its depth reaches the bound. -/
theorem handleDocument_at_bound {fetch : Str → FetchResponse} {maxDepth : Nat}
    {r : CrawlRequest} (h : ¬r.depth < maxDepth) :
    handleDocument fetch maxDepth r = [] := by
  unfold handleDocument
  split
  · rfl
  · split
    · rfl
    · split <;> simp [h]

/-- An empty frontier fetches nothing more. -/
theorem runCrawl_nil (fetch : Str → FetchResponse) (maxDepth : Nat) :
    ∀ (fuel : Nat) (fetched : List Str), runCrawl fetch maxDepth fuel [] fetched = fetched := by
  intro fuel fetched
  cases fuel with
  | zero => rfl
  | succ n => rfl

/-- C6: `handle_document` only ever enqueues requests at depth one past its
own, and only when its own depth is strictly below the bound (hence never
beyond `max_depth`); with `max_depth = 0` the crawl issues exactly one
fetch — the manifest — whatever the fetched content holds. -/
theorem crawl_depth_bound :
    (∀ (fetch : Str → FetchResponse) (maxDepth : Nat) (r r2 : CrawlRequest),
        r2 ∈ handleDocument fetch maxDepth r →
          r2.depth = r.depth + 1 ∧ r.depth < maxDepth ∧ r2.depth ≤ maxDepth) ∧
      ∀ (fetch : Str → FetchResponse) (domain : Str) (fuel : Nat), 1 ≤ fuel →
        ingestCrawl fetch domain 0 fuel = [manifestUrl (domainNormalize domain)] := by
  constructor
  · intro fetch maxDepth r r2 hmem
    unfold handleDocument at hmem
    split at hmem
    · simp at hmem
    · split at hmem
      · simp at hmem
      · split at hmem
        · split at hmem
          · rcases List.mem_map.mp hmem with ⟨link, -, rfl⟩
            have hlt : r.depth < maxDepth := by assumption
            exact ⟨rfl, hlt, by show r.depth + 1 ≤ maxDepth; omega⟩
          · simp at hmem
        · simp at hmem
  · intro fetch domain fuel hfuel
    match fuel, hfuel with
    | f + 1, _ =>
      unfold ingestCrawl
      rw [runCrawl, handleDocument_at_bound (by omega)]
      exact runCrawl_nil fetch 0 f _

/-- Witness for C6: in a concrete fetch environment the manifest's handler
enqueues its one same-domain link at depth 1 under bound 2, and a depth-0
crawl fetches exactly the manifest. -/
theorem crawl_depth_bound_witness :
    ((⟨"https://example.com/x".data, 1⟩ : CrawlRequest).depth =
          (⟨"https://example.com/llms.txt".data, 0⟩ : CrawlRequest).depth + 1 ∧
        (⟨"https://example.com/llms.txt".data, 0⟩ : CrawlRequest).depth < 2 ∧
        (⟨"https://example.com/x".data, 1⟩ : CrawlRequest).depth ≤ 2) ∧
      ingestCrawl demoFetch "example.com".data 0 3 =
        [manifestUrl (domainNormalize "example.com".data)] := by
  refine ⟨crawl_depth_bound.1 demoFetch 2 ⟨"https://example.com/llms.txt".data, 0⟩
      ⟨"https://example.com/x".data, 1⟩ ?_,
    crawl_depth_bound.2 demoFetch "example.com".data 3 (by decide)⟩
  rw [show handleDocument demoFetch 2 ⟨"https://example.com/llms.txt".data, 0⟩ =
    [⟨"https://example.com/x".data, 1⟩] from rfl]
  exact List.mem_singleton_self _

/-- The first-occurrence deduplication keeps a sublist of its input. -/
theorem dedupFirst_sublist : ∀ l : List Str, (dedupFirst l).Sublist l := by
  intro l
  induction l using dedupFirst.induct with
  | case1 => rw [dedupFirst]
  | case2 u rest ih =>
    rw [dedupFirst]
    exact List.cons_sublist_cons.mpr (ih.trans (List.filter_sublist rest))

/-- The first-occurrence deduplication has no duplicates. -/
theorem dedupFirst_nodup : ∀ l : List Str, (dedupFirst l).Nodup := by
  intro l
  induction l using dedupFirst.induct with
  | case1 => rw [dedupFirst]; exact List.nodup_nil
  | case2 u rest ih =>
    rw [dedupFirst]
    refine List.nodup_cons.mpr ⟨fun hmem => ?_, ih⟩
    have := (dedupFirst_sublist _).mem hmem
    have := List.of_mem_filter this
    simp at this

/-- Everything in the input survives the deduplication. -/
theorem mem_dedupFirst : ∀ (l : List Str) (x : Str), x ∈ l → x ∈ dedupFirst l := by
  intro l
  induction l using dedupFirst.induct with
  | case1 => intro x hx; cases hx
  | case2 u rest ih =>
    intro x hx
    rw [dedupFirst]
    rcases List.mem_cons.mp hx with rfl | hmem
    · exact List.mem_cons_self _ _
    · by_cases hxu : x = u
      · exact hxu ▸ List.mem_cons_self _ _
      · exact List.mem_cons_of_mem _ (ih x (List.mem_filter.mpr ⟨hmem, by simp [hxu]⟩))

/-- The seen-set loop of `parse_llms_txt_links` equals first-occurrence
deduplication of the resolved stream with the already-seen URLs removed. -/
theorem collectLinks_eq_dedupFirst :
    ∀ (us : List Str) (baseUrl : Str) (seen : List Str),
      collectLinks baseUrl seen us =
        dedupFirst ((resolvedStream baseUrl us).filter fun v => !seen.contains v) := by
  intro us
  induction us with
  | nil => intro b seen; simp [collectLinks, resolvedStream, dedupFirst]
  | cons u rest ih =>
    intro b seen
    rw [collectLinks]
    by_cases ha : isAnchorLink u = true
    · rw [if_pos ha]
      rw [show resolvedStream b (u :: rest) = resolvedStream b rest from by
        simp [resolvedStream, List.filter_cons, ha]]
      exact ih b seen
    · rw [if_neg ha]
      by_cases hm : isMailtoLink u = true
      · rw [if_pos hm]
        rw [show resolvedStream b (u :: rest) = resolvedStream b rest from by
          simp [resolvedStream, List.filter_cons, ha, hm]]
        exact ih b seen
      · rw [if_neg hm]
        have hstream : resolvedStream b (u :: rest) =
            urljoin b u :: resolvedStream b rest := by
          simp [resolvedStream, List.filter_cons, ha, hm]
        rw [hstream]
        by_cases hseen : seen.contains (urljoin b u) = true
        · rw [if_pos hseen,
            List.filter_cons_of_neg (by simp; exact List.mem_of_elem_eq_true hseen)]
          exact ih b seen
        · rw [if_neg hseen, List.filter_cons_of_pos (by
            simp
            intro habs
            exact hseen (List.elem_eq_true_of_mem habs)), dedupFirst]
          rw [ih b (urljoin b u :: seen)]
          have hfil :
              (resolvedStream b rest).filter (fun v => !(urljoin b u :: seen).contains v) =
                ((resolvedStream b rest).filter fun v => !seen.contains v).filter
                  fun v => !(v == urljoin b u) := by
            rw [List.filter_filter]
            refine List.filter_congr ?_
            intro v _
            by_cases hv : v = urljoin b u
            · simp [hv, List.contains_cons]
            · simp [hv, List.contains_cons]
          rw [hfil]

/-- C7: `parse_llms_txt_links` returns the document's link destinations —
inline, reference-style and autolink — resolved to absolute URLs against
the base URL with fragment-only and mailto references skipped, deduplicated
preserving first-occurrence order (a duplicate-free sublist of the resolved
stream containing every resolved URL); on the spec's manifest scenario the
same-domain links are exactly the base's /x. -/
theorem parse_links_dedup_resolve :
    (∀ (content baseUrl : Str),
        parseLlmsTxtLinks content baseUrl =
          dedupFirst (resolvedStream baseUrl (extractUrls content))) ∧
      (∀ (content baseUrl : Str), (parseLlmsTxtLinks content baseUrl).Nodup) ∧
      (∀ (content baseUrl : Str),
        (parseLlmsTxtLinks content baseUrl).Sublist
          (resolvedStream baseUrl (extractUrls content))) ∧
      (∀ (content baseUrl u : Str), u ∈ resolvedStream baseUrl (extractUrls content) →
        u ∈ parseLlmsTxtLinks content baseUrl) ∧
      (parseLlmsTxtLinks "[a](/x)\n[b](/x)\n[c](http://other.com/y)".data
            "http://example.com/llms.txt".data).filter
          (fun link => isSameDomain "http://example.com/llms.txt".data link) =
        ["http://example.com/x".data] := by
  have hbase : ∀ (content baseUrl : Str),
      parseLlmsTxtLinks content baseUrl =
        dedupFirst (resolvedStream baseUrl (extractUrls content)) := by
    intro content baseUrl
    rw [parseLlmsTxtLinks, collectLinks_eq_dedupFirst]
    congr 1
    rw [show (fun v : Str => !([] : List Str).contains v) = fun _ => true from by
      funext v; rfl]
    exact List.filter_true _
  refine ⟨hbase, ?_, ?_, ?_, by decide⟩
  · intro c b
    rw [hbase]
    exact dedupFirst_nodup _
  · intro c b
    rw [hbase]
    exact dedupFirst_sublist _
  · intro c b u hu
    rw [hbase]
    exact mem_dedupFirst _ _ hu

/-- Witness for C7 at the scenario inputs: every resolved URL of the
manifest is in the parsed link list. -/
theorem parse_links_dedup_resolve_witness :
    "http://example.com/x".data ∈
      parseLlmsTxtLinks "[a](/x)\n[b](/x)\n[c](http://other.com/y)".data
        "http://example.com/llms.txt".data :=
  parse_links_dedup_resolve.2.2.2.1 "[a](/x)\n[b](/x)\n[c](http://other.com/y)".data
    "http://example.com/llms.txt".data "http://example.com/x".data (by decide)

/-- C8: domain normalization is case-, port- and www-prefix-insensitive;
two URLs or domain strings are on the same domain exactly when their
normalized registrable-domain forms agree, and a multi-part public suffix
is preserved. -/
theorem domain_normalization_equivalence :
    domainNormalize "https://www.example.com:443/x".data =
        domainNormalize "EXAMPLE.com".data ∧
      (∀ a b : Str, isSameDomain a b = true ↔ domainNormalize a = domainNormalize b) ∧
      domainNormalize "forums.bbc.co.uk".data = "bbc.co.uk".data ∧
      domainNormalize "https://www.example.com:443/x".data = "example.com".data := by
  refine ⟨by decide, ?_, by decide, by decide⟩
  intro a b
  unfold isSameDomain Domain.fromUrl Domain.ofRaw
  rw [beq_iff_eq]
  exact ⟨fun h => congrArg Domain.value h, fun h => congrArg Domain.mk h⟩

/-- C9: `tome_search` raises `ToolError` exactly when the query is empty or
whitespace-only (equivalently: all its characters are whitespace), performs
no storage access in that case, and otherwise proceeds to exactly one
full-text-search storage call. -/
theorem tome_search_blank_query :
    (∀ (storage : Str → Str → List Str) (domain query : Str),
        (tomeSearch storage domain query).1.isToolError = isBlankQuery query) ∧
      (∀ (storage : Str → Str → List Str) (domain query : Str),
        (tomeSearch storage domain query).2 =
          if isBlankQuery query then [] else [.searchSectionsFts domain query]) ∧
      ∀ query : Str, isBlankQuery query = query.all isPyWs := by
  refine ⟨?_, ?_, ?_⟩
  · intro storage domain query
    unfold tomeSearch
    by_cases hb : isBlankQuery query = true
    · rw [if_pos hb, hb]
      rfl
    · rw [if_neg hb]
      rw [Bool.not_eq_true] at hb
      rw [hb]
      split <;> rfl
  · intro storage domain query
    unfold tomeSearch
    by_cases hb : isBlankQuery query = true
    · rw [if_pos hb, if_pos hb]
    · rw [if_neg hb, if_neg hb]
      split <;> rfl
  · intro query
    unfold isBlankQuery pyStrip
    by_cases hall : query.all isPyWs = true
    · have hd : query.dropWhile isPyWs = [] :=
        List.dropWhile_eq_nil_iff.mpr (fun x hx => List.all_eq_true.mp hall x hx)
      rw [hall, hd]
      simp
    · rw [Bool.not_eq_true] at hall
      rw [hall]
      have hne : query.dropWhile isPyWs ≠ [] := by
        intro hd
        rw [List.all_eq_true.mpr (List.dropWhile_eq_nil_iff.mp hd)] at hall
        cases hall
      have h1 : query.isEmpty = false := by
        cases query with
        | nil => simp [List.dropWhile] at hne
        | cons a l => rfl
      have h2 : (((query.dropWhile isPyWs).reverse.dropWhile isPyWs).reverse).isEmpty = false := by
        rw [Bool.eq_false_iff]
        intro habs
        have hnil : ((query.dropWhile isPyWs).reverse.dropWhile isPyWs).reverse = [] := by
          rwa [List.isEmpty_iff] at habs
        have hnil2 : (query.dropWhile isPyWs).reverse.dropWhile isPyWs = [] := by
          simpa using congrArg List.reverse hnil
        have hwsAll : ∀ x ∈ query, isPyWs x = true := by
          intro x hx
          rw [← List.takeWhile_append_dropWhile isPyWs query] at hx
          rcases List.mem_append.mp hx with h | h
          · exact List.mem_takeWhile_imp h
          · exact List.dropWhile_eq_nil_iff.mp hnil2 x (List.mem_reverse.mpr h)
        rw [List.all_eq_true.mpr hwsAll] at hall
        cases hall
      rw [h1, h2]
      rfl

/-- C10: `is_markdown_content` accepts exactly the Content-Type values
whose media type — the part before any semicolon, stripped and compared
case-insensitively — is text/markdown, text/plain or text/x-markdown, and
rejects a missing or empty header; in particular a plain-text header with a
charset parameter is accepted and an absent header is not. -/
theorem content_type_gate :
    (∀ s : Str,
        isMarkdownContent (some s) = true ↔ s ≠ [] ∧ mediaTypeOf s ∈ allowedContentTypes) ∧
      isMarkdownContent none = false ∧
      isMarkdownContent (some []) = false ∧
      isMarkdownContent (some "Text/Plain; charset=utf-8".data) = true ∧
      isMarkdownContent (some "application/json".data) = false := by
  refine ⟨?_, rfl, rfl, by decide, by decide⟩
  intro s
  rw [show isMarkdownContent (some s) =
    if s.isEmpty then false else allowedContentTypes.contains (mediaTypeOf s) from rfl]
  by_cases he : s.isEmpty = true
  · rw [if_pos he]
    simp [List.isEmpty_iff.mp he]
  · rw [if_neg he]
    constructor
    · intro h
      refine ⟨fun hs => he (by rw [hs]; rfl), List.mem_of_elem_eq_true h⟩
    · intro h
      exact List.elem_eq_true_of_mem h.2

end Sensei
